import Mathlib

/-!
Verification of the `hideMarkers` decoration engine
(`src/extensions/hideMarkers.ts`).

The engine walks a parsed Markdown syntax tree restricted to the visible
ranges, classifies nodes (headings, emphasis, strong, inline code,
strikethrough, list markers, tasks), decides per construct whether its
syntax markers must stay visible given the current selection, accumulates
raw decoration requests, sorts them by `(from, to)` and commits the
non-degenerate ones.

The embedding below is a direct translation of the second (full) copy of
`buildDecorations` and its helpers.  Document offsets are integers (as in
the JavaScript source), the document is a list of characters, the syntax
tree is a rose tree carrying a kind name and a span, and the JavaScript
stable `Array.prototype.sort` is modelled by `List.insertionSort` (stable
sorts with respect to the same total preorder coincide).
-/

namespace Logbook

/-- A `[from, to]` range over document offsets: used for selection ranges,
visible (viewport) ranges and line extents. -/
structure Range where
  «from» : Int
  «to» : Int
deriving DecidableEq, Repr

/-- A syntax-tree node: kind name, span, ordered children. -/
inductive Tree where
  | mk (name : String) («from» «to» : Int) (children : List Tree)

/-- Kind name of a node. -/
def Tree.name : Tree → String
  | .mk n _ _ _ => n

/-- Start offset of a node. -/
def Tree.«from» : Tree → Int
  | .mk _ f _ _ => f

/-- End offset of a node. -/
def Tree.«to» : Tree → Int
  | .mk _ _ t _ => t

/-- Children of a node, in document order. -/
def Tree.children : Tree → List Tree
  | .mk _ _ _ c => c

/-- The decoration payloads of `hideMarkers.ts`: style marks
(`Decoration.mark`) and replacements (`Decoration.replace`) with their
widgets. -/
inductive Deco where
  | heading (level : Nat)
  | emphasis
  | strong
  | inlineCode
  | strikethrough
  | hide
  | bullet
  | orderedList (num : String)
  | checkbox (checked : Bool) (pos : Int)
deriving DecidableEq, Repr

/-- One raw decoration request `{ from, to, deco }` pushed onto the
`decos` array while traversing. -/
structure DecoReq where
  «from» : Int
  «to» : Int
  deco : Deco
deriving DecidableEq, Repr

/-! ### Document utilities -/

/-- `view.state.sliceDoc(from, to)`. -/
def sliceDoc (doc : List Char) («from» «to» : Int) : List Char :=
  (doc.take «to».toNat).drop «from».toNat

/-- `view.state.doc.lineAt(pos)`: the line containing position `pos`,
with `from` just after the previous newline and `to` just before the next
newline (or the document boundary). -/
def lineAt (doc : List Char) (pos : Int) : Range :=
  let p := pos.toNat
  let before := ((doc.take p).reverse.takeWhile (fun c => c ≠ '\n')).length
  let after := ((doc.drop p).takeWhile (fun c => c ≠ '\n')).length
  ⟨(p - before : Nat), (p + after : Nat)⟩

/-- `String.prototype.trim` on a character list. -/
def trimChars (s : List Char) : List Char :=
  ((s.dropWhile Char.isWhitespace).reverse.dropWhile Char.isWhitespace).reverse

/-- The regular expression `^\d+\.$`: a non-empty run of digits followed
by a dot. -/
def isOrderedListMark (s : List Char) : Bool :=
  s.getLast? == some '.' && !s.dropLast.isEmpty && s.dropLast.all Char.isDigit

/-! ### Cursor check utilities -/

/-- `isCursorInRange(view, from, to)`: true iff some selection range `r`
satisfies `r.from <= to && r.«to» >= from` (inclusive-touch overlap). -/
def isCursorInRange (sel : List Range) («from» «to» : Int) : Bool :=
  sel.any (fun r => decide (r.«from» ≤ «to») && decide (r.«to» ≥ «from»))

/-- `isCursorOnLine(view, pos)`: overlap test against the whole line
containing `pos`. -/
def isCursorOnLine (doc : List Char) (sel : List Range) (pos : Int) : Bool :=
  let line := lineAt doc pos
  isCursorInRange sel line.«from» line.«to»

/-! ### Per-node classification blocks of `buildDecorations` -/

/-- The regular expression match `^ATXHeading(\d)$` followed by
`parseInt` of the captured digit. -/
def headingLevel (name : String) : Option Nat :=
  match name.toList with
  | ['A', 'T', 'X', 'H', 'e', 'a', 'd', 'i', 'n', 'g', d] =>
      if d.isDigit then some (d.toNat - '0'.toNat) else none
  | _ => none

/-- ATX heading handling: a heading style over the whole node (for levels
1–6, where `headingDecorations[level]` is defined), and, when the cursor
is not on the heading's line, a hide replacement over the first
`HeaderMark` child extended by one character (clamped to the node end). -/
def headingBlock (doc : List Char) (sel : List Range) (node : Tree) : List DecoReq :=
  match headingLevel node.name with
  | some level =>
      (if 1 ≤ level && level ≤ 6 then [⟨node.«from», node.«to», .heading level⟩] else [])
      ++
      (if !isCursorOnLine doc sel node.«from» then
        match node.children.find? (fun c => c.name == "HeaderMark") with
        | some c => [⟨c.«from», min (c.«to» + 1) node.«to», .hide⟩]
        | none => []
      else [])
  | none => []

/-- The children of `node` whose kind name is `markName`, in order; the
source loop keeps the first and the last of these. -/
def markChildren (node : Tree) (markName : String) : List Tree :=
  node.children.filter (fun c => c.name == markName)

/-- Shared shape of the Emphasis / StrongEmphasis / Strikethrough
handlers: a style request strictly between the first and last mark child,
and hide replacements over both marks when the cursor is outside the
node's span. -/
def spanBlock (sel : List Range) (node : Tree) (markName : String) (style : Deco) :
    List DecoReq :=
  let cursorIn := isCursorInRange sel node.«from» node.«to»
  let marks := markChildren node markName
  match marks.head?, marks.getLast? with
  | some firstMark, some lastMark =>
      [⟨firstMark.«to», lastMark.«from», style⟩]
      ++
      (if !cursorIn then
        [⟨firstMark.«from», firstMark.«to», .hide⟩, ⟨lastMark.«from», lastMark.«to», .hide⟩]
      else [])
  | _, _ => []

/-- `Emphasis` handling. -/
def emphasisBlock (sel : List Range) (node : Tree) : List DecoReq :=
  if node.name == "Emphasis" then spanBlock sel node "EmphasisMark" .emphasis else []

/-- `StrongEmphasis` handling. -/
def strongBlock (sel : List Range) (node : Tree) : List DecoReq :=
  if node.name == "StrongEmphasis" then spanBlock sel node "EmphasisMark" .strong else []

/-- `Strikethrough` handling. -/
def strikethroughBlock (sel : List Range) (node : Tree) : List DecoReq :=
  if node.name == "Strikethrough" then
    spanBlock sel node "StrikethroughMark" .strikethrough
  else []

/-- `InlineCode` handling: a style request over the whole node span
(always), and hide replacements over the first and last `CodeMark`
children when the cursor is outside the span. -/
def inlineCodeBlock (sel : List Range) (node : Tree) : List DecoReq :=
  if node.name == "InlineCode" then
    [⟨node.«from», node.«to», .inlineCode⟩]
    ++
    (if !isCursorInRange sel node.«from» node.«to» then
      let marks := markChildren node "CodeMark"
      match marks.head?, marks.getLast? with
      | some firstMark, some lastMark =>
          [⟨firstMark.«from», firstMark.«to», .hide⟩, ⟨lastMark.«from», lastMark.«to», .hide⟩]
      | _, _ => []
    else [])
  else []

/-- `ListItem` handling: skipped when a `Task` child exists; otherwise
the `ListMark` child is replaced by an ordered-list numeral or a bullet
widget when the cursor is outside the mark. -/
def listItemBlock (doc : List Char) (sel : List Range) (node : Tree) : List DecoReq :=
  if node.name == "ListItem" then
    let hasTask := node.children.any (fun c => c.name == "Task")
    if !hasTask then
      match node.children.find? (fun c => c.name == "ListMark") with
      | some child =>
          let markText := trimChars (sliceDoc doc child.«from» child.«to»)
          let cursorInMarker := isCursorInRange sel child.«from» child.«to»
          if !cursorInMarker then
            if isOrderedListMark markText then
              [⟨child.«from», child.«to» + 1, .orderedList (String.mk markText)⟩]
            else
              [⟨child.«from», child.«to» + 1, .bullet⟩]
          else []
      | none => []
    else []
  else []

/-- The sibling `ListMark` pulled in by the `Task` handler from the
`ListItem` parent. -/
def taskListMark (parent : Option Tree) : Option Tree :=
  match parent with
  | some p =>
      if p.name == "ListItem" then p.children.find? (fun c => c.name == "ListMark")
      else none
  | none => none

/-- The start of the cursor test range used by the `Task` handler:
the list mark's start when one exists, the task marker's start
otherwise. -/
def taskRangeStart (parent : Option Tree) (taskMarker : Tree) : Int :=
  match taskListMark parent with
  | some lm => lm.«from»
  | none => taskMarker.«from»

/-- `Task` handling: pulls in the sibling `ListMark` from the `ListItem`
parent, tests the cursor over `[rangeStart, taskMarker.«to» - 1]`, and when
outside replaces the list mark (extended by one) and the task marker by a
checkbox widget capturing the marker's start offset. -/
def taskBlock (doc : List Char) (sel : List Range) (parent : Option Tree) (node : Tree) :
    List DecoReq :=
  if node.name == "Task" then
    let listMark : Option Tree := taskListMark parent
    match node.children.find? (fun c => c.name == "TaskMarker") with
    | some taskMarker =>
        let rangeStart := taskRangeStart parent taskMarker
        let cursorInMarker := isCursorInRange sel rangeStart (taskMarker.«to» - 1)
        if !cursorInMarker then
          (match listMark with
           | some lm => [⟨lm.«from», lm.«to» + 1, .hide⟩]
           | none => [])
          ++
          (let text := sliceDoc doc taskMarker.«from» taskMarker.«to»
           let checked := text.any (fun c => c == 'x' || c == 'X')
           [⟨taskMarker.«from», taskMarker.«to», .checkbox checked taskMarker.«from»⟩])
        else []
    | none => []
  else []

/-- The whole `enter` callback body, one node: the seven classification
blocks in source order. -/
def enterNode (doc : List Char) (sel : List Range) (parent : Option Tree) (node : Tree) :
    List DecoReq :=
  headingBlock doc sel node
  ++ emphasisBlock sel node
  ++ strongBlock sel node
  ++ inlineCodeBlock sel node
  ++ strikethroughBlock sel node
  ++ listItemBlock doc sel node
  ++ taskBlock doc sel parent node

/-! ### Tree traversal restricted to a visible range -/

/-- `tree.iterate({from, to})` visits exactly the nodes touching the
range. -/
def overlapsRange («from» «to» : Int) (node : Tree) : Bool :=
  decide (node.«from» ≤ «to») && decide («from» ≤ node.«to»)

mutual

/-- Pre-order traversal of the subtree at `node` restricted to
`[vfrom, vto]`, collecting the requests pushed by `enter`. -/
def iterTree (doc : List Char) (sel : List Range) (vfrom vto : Int)
    (parent : Option Tree) : Tree → List DecoReq
  | .mk nm f t cs =>
      if overlapsRange vfrom vto (.mk nm f t cs) then
        enterNode doc sel parent (.mk nm f t cs)
        ++ iterChildren doc sel vfrom vto (.mk nm f t cs) cs
      else []

/-- Traversal of a child list; each child sees its parent node. -/
def iterChildren (doc : List Char) (sel : List Range) (vfrom vto : Int)
    (parent : Tree) : List Tree → List DecoReq
  | [] => []
  | c :: rest =>
      iterTree doc sel vfrom vto (some parent) c
      ++ iterChildren doc sel vfrom vto parent rest

end

/-! ### Assembling the decoration set -/

/-- The raw `decos` array: one traversal per visible range, concatenated
in order. -/
def rawDecorations (doc : List Char) (tree : Tree) (sel : List Range)
    (viewport : List Range) : List DecoReq :=
  viewport.flatMap (fun r => iterTree doc sel r.«from» r.«to» none tree)

/-- The total preorder realised by the comparator
`(a, b) => a.from - b.from || a.«to» - b.«to»`. -/
def decoLE (a b : DecoReq) : Prop :=
  a.«from» < b.«from» ∨ (a.«from» = b.«from» ∧ a.«to» ≤ b.«to»)

instance (a b : DecoReq) : Decidable (decoLE a b) :=
  inferInstanceAs (Decidable (a.«from» < b.«from» ∨ (a.«from» = b.«from» ∧ a.«to» ≤ b.«to»)))

instance : IsTotal DecoReq decoLE :=
  ⟨fun a b => by unfold decoLE; omega⟩

instance : IsTrans DecoReq decoLE :=
  ⟨fun a b c hab hbc => by unfold decoLE at *; omega⟩

/-- `buildDecorations(view)`: collect the raw requests, sort them stably
by `(from, to)` and keep exactly the non-degenerate ones. -/
def buildDecorations (doc : List Char) (tree : Tree) (sel : List Range)
    (viewport : List Range) : List DecoReq :=
  let decos := rawDecorations doc tree sel viewport
  (decos.insertionSort decoLE).filter (fun d => decide (d.«from» < d.«to»))

/-! ### Checkbox widget activation -/

/-- A single text change `{ from, to, insert }` as passed to
`view.dispatch({ changes: ... })`. -/
structure ChangeSpec where
  «from» : Int
  «to» : Int
  insert : List Char
deriving DecidableEq, Repr

/-- The one change dispatched by `CheckboxWidget`'s `mousedown` handler:
replace `[pos, pos + 3)` with the toggled marker text. -/
def checkboxToggleChange (checked : Bool) (pos : Int) : ChangeSpec :=
  let newText := if checked then "[ ]" else "[x]"
  ⟨pos, pos + 3, newText.toList⟩

/-- The full change list of the single `view.dispatch` call in the
handler. -/
def checkboxMousedownChanges (checked : Bool) (pos : Int) : List ChangeSpec :=
  [checkboxToggleChange checked pos]

/-- Applying one text change to a document. -/
def applyChange (doc : List Char) (ch : ChangeSpec) : List Char :=
  doc.take ch.«from».toNat ++ ch.insert ++ doc.drop ch.«to».toNat

/-! ### Derived notions used in the statements -/

/-- Whether a decoration payload is a style annotation
(`Decoration.mark`) as opposed to a replacement (`Decoration.replace`). -/
def isStyleDeco : Deco → Bool
  | .heading _ => true
  | .emphasis => true
  | .strong => true
  | .inlineCode => true
  | .strikethrough => true
  | .hide => false
  | .bullet => false
  | .orderedList _ => false
  | .checkbox _ _ => false

/-- Whether a decoration payload is a checkbox replacement. -/
def isCheckboxDeco : Deco → Bool
  | .checkbox _ _ => true
  | _ => false

/-! ## Claims -/

/-! Small evaluation lemmas for the payload classifiers. -/

@[simp] theorem isStyleDeco_heading (n : Nat) : isStyleDeco (Deco.heading n) = true := rfl

@[simp] theorem isStyleDeco_emphasis : isStyleDeco Deco.emphasis = true := rfl

@[simp] theorem isStyleDeco_strong : isStyleDeco Deco.strong = true := rfl

@[simp] theorem isStyleDeco_inlineCode : isStyleDeco Deco.inlineCode = true := rfl

@[simp] theorem isStyleDeco_strikethrough : isStyleDeco Deco.strikethrough = true := rfl

@[simp] theorem isStyleDeco_hide : isStyleDeco Deco.hide = false := rfl

@[simp] theorem isStyleDeco_bullet : isStyleDeco Deco.bullet = false := rfl

@[simp] theorem isStyleDeco_orderedList (s : String) :
    isStyleDeco (Deco.orderedList s) = false := rfl

@[simp] theorem isStyleDeco_checkbox (b : Bool) (p : Int) :
    isStyleDeco (Deco.checkbox b p) = false := rfl

@[simp] theorem isCheckboxDeco_checkbox (b : Bool) (p : Int) :
    isCheckboxDeco (Deco.checkbox b p) = true := rfl

@[simp] theorem isCheckboxDeco_hide : isCheckboxDeco Deco.hide = false := rfl

/-- C1: a marker is forced visible iff some selection range overlaps the
construct's reference range under inclusive-touch semantics
(`selection.from <= reference.to && selection.to >= reference.from`); a
caret placed exactly at a boundary offset of the reference range counts
as inside; and for span constructs with mark children the hide
replacements are emitted exactly when the test fails for every selection
range. -/
theorem cursor_overlap_forces_visibility (sel : List Range) (f t : Int) :
    (isCursorInRange sel f t = true ↔ ∃ r ∈ sel, r.«from» ≤ t ∧ r.«to» ≥ f)
    ∧ (f ≤ t →
        isCursorInRange (⟨f, f⟩ :: sel) f t = true
        ∧ isCursorInRange (⟨t, t⟩ :: sel) f t = true)
    ∧ (∀ (node : Tree) (markName : String) (style : Deco),
        markChildren node markName ≠ [] → style ≠ Deco.hide →
        ((spanBlock sel node markName style).any (fun d => d.deco == Deco.hide)
          = !isCursorInRange sel node.«from» node.«to»)) := by
  refine ⟨?_, ?_, ?_⟩
  · simp [isCursorInRange, List.any_eq_true]
  · intro h
    constructor <;> simp [isCursorInRange, h]
  · intro node markName style hne hstyle
    obtain ⟨a, ha⟩ : ∃ a, (markChildren node markName).head? = some a := by
      rw [← Option.isSome_iff_exists, List.head?_isSome]
      exact hne
    obtain ⟨b, hb⟩ : ∃ b, (markChildren node markName).getLast? = some b := by
      rw [← Option.isSome_iff_exists, List.getLast?_isSome]
      exact hne
    cases hcur : isCursorInRange sel node.«from» node.«to» <;>
      simp [spanBlock, ha, hb, hcur, hstyle]

/-- C1 witness: a caret exactly at the reference start offset is treated
as inside. -/
theorem cursor_overlap_forces_visibility_witness :
    isCursorInRange [⟨(0 : Int), 0⟩] 0 2 = true :=
  ((cursor_overlap_forces_visibility [] 0 2).2.1 (by decide)).1

/-- C2: the visibility reference range of an ATX heading is the whole
source line containing the heading: the `HeaderMark` hide replacement is
emitted exactly when no selection range touches that line, and a caret
reveals the marker exactly when it lies in `[line.from, line.to]`
(inclusive of the line end offset). -/
theorem headingBlock_line_scope (doc : List Char) (sel : List Range)
    (node c : Tree) (lvl : Nat)
    (hname : headingLevel node.name = some lvl)
    (hc : node.children.find? (fun x => x.name == "HeaderMark") = some c) :
    ((headingBlock doc sel node).any (fun d => d.deco == Deco.hide)
      = !isCursorOnLine doc sel node.«from»)
    ∧ (∀ p : Int,
        isCursorOnLine doc [⟨p, p⟩] node.«from»
          = (decide ((lineAt doc node.«from»).«from» ≤ p)
             && decide (p ≤ (lineAt doc node.«from»).«to»))) := by
  constructor
  · simp only [headingBlock, hname, hc]
    cases hcur : isCursorOnLine doc sel node.«from» with
    | true =>
        simp only [hcur, Bool.not_true, List.any_append]
        simp
        intro x _ _ hx
        subst hx
        simp
    | false => simp [hcur, List.any_append]
  · intro p
    simp only [isCursorOnLine, isCursorInRange, List.any_cons, List.any_nil,
      Bool.or_false, ge_iff_le]
    rw [Bool.and_comm]

/-- C2 witness: for `## Title` on line `[0, 8]`, a caret on the next line
leaves the hide replacement emitted. -/
theorem headingBlock_line_scope_witness :
    (headingBlock "## Title\nnext".toList [⟨9, 9⟩]
        (Tree.mk "ATXHeading2" 0 8 [Tree.mk "HeaderMark" 0 2 []])).any
        (fun d => d.deco == Deco.hide)
      = !isCursorOnLine "## Title\nnext".toList [⟨9, 9⟩]
          (Tree.mk "ATXHeading2" 0 8 [Tree.mk "HeaderMark" 0 2 []]).«from» :=
  (headingBlock_line_scope "## Title\nnext".toList [⟨9, 9⟩]
    (Tree.mk "ATXHeading2" 0 8 [Tree.mk "HeaderMark" 0 2 []])
    (Tree.mk "HeaderMark" 0 2 []) 2 rfl rfl).1

/-- C3 counterexample: a `StrongEmphasis` node with exactly one
emphasis-mark child (fewer than two) still produces decorations: the
`firstMark && lastMark` guard passes with `firstMark = lastMark`, so with
the cursor elsewhere the builder commits two hide replacements over the
single mark. -/
theorem strong_single_mark_emits_decorations :
    buildDecorations []
        (Tree.mk "StrongEmphasis" 0 6 [Tree.mk "EmphasisMark" 0 2 []])
        [⟨100, 100⟩] [⟨0, 6⟩]
      = [⟨0, 2, .hide⟩, ⟨0, 2, .hide⟩] := by decide

/-- C3 amended: a Strong or Emphasis node with zero emphasis-mark
children produces no decoration requests at all (and the total function
`buildDecorations` models that the rebuild never throws). -/
theorem strong_zero_marks_no_decorations (doc : List Char) (sel : List Range)
    (parent : Option Tree) (node : Tree)
    (hname : node.name = "StrongEmphasis" ∨ node.name = "Emphasis")
    (hmarks : markChildren node "EmphasisMark" = []) :
    enterNode doc sel parent node = [] := by
  have h1 : headingLevel "StrongEmphasis" = none := rfl
  have h2 : headingLevel "Emphasis" = none := rfl
  rcases hname with h | h <;>
    simp [enterNode, headingBlock, emphasisBlock, strongBlock, inlineCodeBlock,
      strikethroughBlock, listItemBlock, taskBlock, spanBlock, h, hmarks, h1, h2]

/-- C3 amended witness: a bare `StrongEmphasis` node with no children
yields no requests. -/
theorem strong_zero_marks_no_decorations_witness :
    enterNode [] [] none (Tree.mk "StrongEmphasis" 0 6 []) = [] :=
  strong_zero_marks_no_decorations [] [] none _ (Or.inl rfl) rfl

/-- C4 counterexample: a `StrongEmphasis` construct whose markers are
forced visible (caret inside the span) receives no marker decoration at
all: the committed collection holds only the content style request, and
nothing — neither a replacement nor a muted style — covers the marker
sub-ranges `[10, 12)` and `[18, 20)`. -/
theorem visible_markers_get_no_decoration :
    buildDecorations []
        (Tree.mk "StrongEmphasis" 10 20
          [Tree.mk "EmphasisMark" 10 12 [], Tree.mk "EmphasisMark" 18 20 []])
        [⟨15, 15⟩] [⟨0, 30⟩]
      = [⟨12, 18, .strong⟩] := by decide

/-- C4 amended: when the markers of a span construct are forced visible,
the builder emits only the content style request; the marker sub-ranges
receive no decoration at all (they render as plain, selectable text). -/
theorem spanBlock_visible_markers (sel : List Range) (node : Tree)
    (markName : String) (style : Deco) (f l : Tree)
    (hf : (markChildren node markName).head? = some f)
    (hl : (markChildren node markName).getLast? = some l)
    (hcur : isCursorInRange sel node.«from» node.«to» = true) :
    spanBlock sel node markName style = [⟨f.«to», l.«from», style⟩] := by
  simp [spanBlock, hf, hl, hcur]

/-- C4 amended witness: the concrete Strong construct from the reveal
example, caret inside. -/
theorem spanBlock_visible_markers_witness :
    spanBlock [⟨15, 15⟩]
        (Tree.mk "StrongEmphasis" 10 20
          [Tree.mk "EmphasisMark" 10 12 [], Tree.mk "EmphasisMark" 18 20 []])
        "EmphasisMark" .strong
      = [⟨12, 18, .strong⟩] :=
  spanBlock_visible_markers [⟨15, 15⟩]
    (Tree.mk "StrongEmphasis" 10 20
      [Tree.mk "EmphasisMark" 10 12 [], Tree.mk "EmphasisMark" 18 20 []])
    "EmphasisMark" .strong (Tree.mk "EmphasisMark" 10 12 [])
    (Tree.mk "EmphasisMark" 18 20 []) rfl rfl rfl

/-- C5 counterexample: an `InlineCode` construct emits its single style
request over the whole node span `[0, 6)`, marker characters included,
not over the span `[1, 5)` strictly between the code marks. -/
theorem inlineCode_style_covers_markers :
    buildDecorations []
        (Tree.mk "InlineCode" 0 6
          [Tree.mk "CodeMark" 0 1 [], Tree.mk "CodeMark" 5 6 []])
        [⟨2, 2⟩] [⟨0, 6⟩]
      = [⟨0, 6, .inlineCode⟩] := by decide

/-- C5 amended: Emphasis/Strong/Strikethrough constructs emit exactly
one style annotation, over the span strictly between the first and last
marks; InlineCode and Heading (levels 1–6) emit exactly one style
annotation covering the whole node span, markers included; list-mark and
task handling emits no style annotation. -/
theorem style_annotation_ranges :
    (∀ (sel : List Range) (node : Tree) (markName : String) (style : Deco) (f l : Tree),
        isStyleDeco style = true →
        (markChildren node markName).head? = some f →
        (markChildren node markName).getLast? = some l →
        (spanBlock sel node markName style).filter (fun d => isStyleDeco d.deco)
          = [⟨f.«to», l.«from», style⟩])
    ∧ (∀ (sel : List Range) (node : Tree), node.name = "InlineCode" →
        (inlineCodeBlock sel node).filter (fun d => isStyleDeco d.deco)
          = [⟨node.«from», node.«to», .inlineCode⟩])
    ∧ (∀ (doc : List Char) (sel : List Range) (node : Tree) (lvl : Nat),
        headingLevel node.name = some lvl → 1 ≤ lvl → lvl ≤ 6 →
        (headingBlock doc sel node).filter (fun d => isStyleDeco d.deco)
          = [⟨node.«from», node.«to», .heading lvl⟩])
    ∧ (∀ (doc : List Char) (sel : List Range) (node : Tree),
        (listItemBlock doc sel node).filter (fun d => isStyleDeco d.deco) = [])
    ∧ (∀ (doc : List Char) (sel : List Range) (parent : Option Tree) (node : Tree),
        (taskBlock doc sel parent node).filter (fun d => isStyleDeco d.deco) = []) := by
  refine ⟨?_, ?_, ?_, ?_, ?_⟩
  · intro sel node markName style f l hs hf hl
    cases hcur : isCursorInRange sel node.«from» node.«to» <;>
      simp [spanBlock, hf, hl, hcur, hs]
  · intro sel node hname
    cases hcur : isCursorInRange sel node.«from» node.«to» with
    | true => simp [inlineCodeBlock, hname, hcur]
    | false =>
        simp [inlineCodeBlock, hname, hcur]
        split <;> simp
  · intro doc sel node lvl hname h1 h6
    have hb : (decide (1 ≤ lvl) && decide (lvl ≤ 6)) = true := by simp [h1, h6]
    cases hcur : isCursorOnLine doc sel node.«from» with
    | true => simp [headingBlock, hname, hb, hcur]
    | false =>
        simp [headingBlock, hname, hb, hcur]
        split <;> simp
  · intro doc sel node
    simp only [listItemBlock]
    repeat' split
    all_goals simp
  · intro doc sel parent node
    simp only [taskBlock]
    repeat' split
    all_goals simp

/-- C5 amended witness: the InlineCode conjunct at the concrete
construct. -/
theorem style_annotation_ranges_witness :
    (inlineCodeBlock [⟨2, 2⟩]
        (Tree.mk "InlineCode" 0 6
          [Tree.mk "CodeMark" 0 1 [], Tree.mk "CodeMark" 5 6 []])).filter
        (fun d => isStyleDeco d.deco)
      = [⟨0, 6, .inlineCode⟩] :=
  style_annotation_ranges.2.1 [⟨2, 2⟩]
    (Tree.mk "InlineCode" 0 6 [Tree.mk "CodeMark" 0 1 [], Tree.mk "CodeMark" 5 6 []]) rfl

/-- C6: the assembler sorts all accumulated requests by `(from, to)`
ascending, drops every request with `from >= to`, and commits exactly the
remaining ones: the committed collection is sorted under `decoLE`, is a
permutation of the non-degenerate raw requests, and holds only
`from < to` elements. -/
theorem assembler_sorts_and_filters (doc : List Char) (tree : Tree)
    (sel : List Range) (viewport : List Range) :
    (buildDecorations doc tree sel viewport).Sorted decoLE
    ∧ (buildDecorations doc tree sel viewport).Perm
        ((rawDecorations doc tree sel viewport).filter
          (fun d => decide (d.«from» < d.«to»)))
    ∧ (∀ d ∈ buildDecorations doc tree sel viewport, d.«from» < d.«to») := by
  refine ⟨?_, ?_, ?_⟩
  · simp only [buildDecorations]
    exact (List.sorted_insertionSort decoLE _).filter _
  · simp only [buildDecorations]
    exact (List.perm_insertionSort decoLE _).filter _
  · intro d hd
    simp only [buildDecorations] at hd
    exact of_decide_eq_true (List.mem_filter.mp hd).2

/-- C6 witness: the committed hide decoration of the one-mark Strong
example is non-degenerate. -/
theorem assembler_sorts_and_filters_witness :
    (⟨0, 2, Deco.hide⟩ : DecoReq).«from» < (⟨0, 2, Deco.hide⟩ : DecoReq).«to» :=
  (assembler_sorts_and_filters []
      (Tree.mk "StrongEmphasis" 0 6 [Tree.mk "EmphasisMark" 0 2 []])
      [⟨100, 100⟩] [⟨0, 6⟩]).2.2
    ⟨0, 2, Deco.hide⟩ (by decide)

/-- C7 counterexample: with viewport `[0, 5]` the heading node `[0, 8)`
is traversed (it overlaps the range) and its committed heading decoration
extends to offset `8`, outside the traversed range. -/
theorem committed_decoration_escapes_viewport :
    ∃ d ∈ buildDecorations "## Title\nnext".toList
        (Tree.mk "Document" 0 13
          [Tree.mk "ATXHeading2" 0 8 [Tree.mk "HeaderMark" 0 2 []]])
        [⟨100, 100⟩] [⟨0, 5⟩],
      (5 : Int) < d.«to» := by decide

/-- C7 amended: every committed decoration satisfies `from < to`, and
traversal is restricted to nodes overlapping the viewport range — a
subtree that does not touch the range contributes nothing — but a
committed decoration's own span may extend beyond the traversed range
when its producing node straddles the boundary. -/
theorem committed_nondegenerate_and_overlap_restricted (doc : List Char)
    (tree : Tree) (sel : List Range) (viewport : List Range) :
    (∀ d ∈ buildDecorations doc tree sel viewport, d.«from» < d.«to»)
    ∧ (∀ (vfrom vto : Int) (parent : Option Tree) (node : Tree),
        overlapsRange vfrom vto node = false →
        iterTree doc sel vfrom vto parent node = []) := by
  constructor
  · intro d hd
    simp only [buildDecorations] at hd
    exact of_decide_eq_true (List.mem_filter.mp hd).2
  · intro vfrom vto parent node h
    cases node with
    | mk nm f t cs => simp [iterTree, h]

/-- C7 amended witness: at the concrete heading input every committed
decoration is non-degenerate, and a node right of the viewport emits
nothing. -/
theorem committed_nondegenerate_witness :
    iterTree [] [] 0 5 none (Tree.mk "ATXHeading2" 10 18 []) = [] :=
  (committed_nondegenerate_and_overlap_restricted [] (Tree.mk "Document" 0 13 [])
      [] []).2 0 5 none (Tree.mk "ATXHeading2" 10 18 []) (by decide)

/-- C8: `buildDecorations` is deterministic on identical inputs, and the
sort is stable: an ordered pair of raw requests whose keys satisfy
`decoLE` — in particular a tie on `(from, to)`, where the insertion order
of the producing constructs is the secondary key — survives in the same
relative order into the committed collection whenever both requests are
non-degenerate. -/
theorem buildDecorations_deterministic_stable (doc : List Char) (tree : Tree)
    (sel : List Range) (viewport : List Range) :
    (buildDecorations doc tree sel viewport = buildDecorations doc tree sel viewport)
    ∧ (∀ a b : DecoReq, decoLE a b →
        a.«from» < a.«to» → b.«from» < b.«to» →
        [a, b].Sublist (rawDecorations doc tree sel viewport) →
        [a, b].Sublist (buildDecorations doc tree sel viewport)) := by
  refine ⟨rfl, ?_⟩
  intro a b hle ha hb hsub
  have h1 : [a, b].Sublist ((rawDecorations doc tree sel viewport).insertionSort decoLE) :=
    List.pair_sublist_insertionSort hle hsub
  have h2 := h1.filter (fun d => decide (d.«from» < d.«to»))
  simp only [List.filter_cons, List.filter_nil, decide_eq_true ha, decide_eq_true hb,
    if_true] at h2
  exact h2

/-- C8 witness: the two tied hide requests of the one-mark Strong example
survive, in insertion order, into the committed collection. -/
theorem buildDecorations_deterministic_stable_witness :
    [(⟨0, 2, Deco.hide⟩ : DecoReq), ⟨0, 2, Deco.hide⟩].Sublist
      (buildDecorations []
        (Tree.mk "StrongEmphasis" 0 6 [Tree.mk "EmphasisMark" 0 2 []])
        [⟨100, 100⟩] [⟨0, 6⟩]) :=
  (buildDecorations_deterministic_stable []
      (Tree.mk "StrongEmphasis" 0 6 [Tree.mk "EmphasisMark" 0 2 []])
      [⟨100, 100⟩] [⟨0, 6⟩]).2
    ⟨0, 2, Deco.hide⟩ ⟨0, 2, Deco.hide⟩ (by decide) (by decide) (by decide)
    ((List.Sublist.cons _ (List.Sublist.refl _)))

/-- C9: activating the checkbox widget dispatches exactly one text
replacement, covering exactly the three-character range `[pos, pos + 3)`
starting at the offset the builder captured (the task marker's start,
stored in the checkbox payload), substituting `[ ]` for `[x]` or vice
versa; the document keeps its length and no character outside that range
changes. -/
theorem checkbox_toggle_single_replace (doc : List Char) (checked : Bool) (pos : Int)
    (h0 : 0 ≤ pos) (h3 : pos.toNat + 3 ≤ doc.length) :
    (checkboxMousedownChanges checked pos).length = 1
    ∧ (checkboxToggleChange checked pos).«from» = pos
    ∧ (checkboxToggleChange checked pos).«to» = pos + 3
    ∧ (checkboxToggleChange checked pos).insert
        = (if checked then "[ ]" else "[x]").toList
    ∧ (applyChange doc (checkboxToggleChange checked pos)).length = doc.length
    ∧ sliceDoc (applyChange doc (checkboxToggleChange checked pos)) pos (pos + 3)
        = (if checked then "[ ]" else "[x]").toList
    ∧ (∀ i : Nat, i < pos.toNat ∨ pos.toNat + 3 ≤ i →
        (applyChange doc (checkboxToggleChange checked pos))[i]? = doc[i]?)
    ∧ (∀ (doc₂ : List Char) (sel : List Range) (parent : Option Tree) (node : Tree)
        (d : DecoReq) (ck : Bool) (q : Int),
        d ∈ taskBlock doc₂ sel parent node → d.deco = Deco.checkbox ck q →
        q = d.«from») := by
  have hto : ((pos + 3 : Int)).toNat = pos.toNat + 3 := by omega
  have hlen : ((if checked then "[ ]" else "[x]") : String).toList.length = 3 := by
    cases checked <;> rfl
  have hL1 : (doc.take pos.toNat).length = pos.toNat := by
    rw [List.length_take]; omega
  have hL2 : (doc.take pos.toNat ++ ((if checked then "[ ]" else "[x]") : String).toList).length
      = pos.toNat + 3 := by
    rw [List.length_append, hL1, hlen]
  refine ⟨rfl, rfl, rfl, rfl, ?_, ?_, ?_, ?_⟩
  · simp only [applyChange, checkboxToggleChange, hto]
    rw [List.length_append, List.length_append, List.length_take, List.length_drop, hlen]
    omega
  · simp only [sliceDoc, applyChange, checkboxToggleChange, hto]
    rw [List.take_left' hL2, List.drop_left' hL1]
  · intro i hi
    simp only [applyChange, checkboxToggleChange, hto]
    rcases hi with hi | hi
    · rw [List.getElem?_append_left (by rw [hL2]; omega),
        List.getElem?_append_left (by rw [hL1]; omega), List.getElem?_take_of_lt hi]
    · rw [List.getElem?_append_right (by rw [hL2]; omega),
        hL2, List.getElem?_drop]
      have heq : pos.toNat + 3 + (i - (pos.toNat + 3)) = i := by omega
      rw [heq]
  · intro doc₂ sel parent node d ck q hd hdeco
    cases h1 : (node.name == "Task") with
    | false => rw [taskBlock, h1] at hd; simp at hd
    | true =>
        rw [taskBlock, h1] at hd
        simp only [if_true] at hd
        cases h2 : node.children.find? (fun c => c.name == "TaskMarker") with
        | none => simp [h2] at hd
        | some tm =>
            simp only [h2] at hd
            cases h3 : isCursorInRange sel (taskRangeStart parent tm) (tm.«to» - 1) with
            | true => simp [h3] at hd
            | false =>
                simp only [h3, Bool.not_false, if_true] at hd
                cases h4 : taskListMark parent with
                | none =>
                    simp [h4] at hd
                    subst hd
                    simp at hdeco
                    simp [hdeco]
                | some lm =>
                    simp [h4] at hd
                    rcases hd with h | h <;> subst h <;> simp_all

/-- C9 witness: toggling the unchecked task of `- [ ] Buy milk` with the
marker at `[2, 5)` keeps the text outside the marker unchanged. -/
theorem checkbox_toggle_single_replace_witness :
    sliceDoc (applyChange "- [ ] Buy milk".toList (checkboxToggleChange false 2)) 2 5
      = (if false then "[ ]" else "[x]").toList :=
  (checkbox_toggle_single_replace "- [ ] Buy milk".toList false 2
      (by decide) (by decide)).2.2.2.2.2.1

/-- C10: the Task visibility test runs over the range from the list
mark's start (the task marker's start when no sibling list mark exists)
up to the task marker's end minus one: the checkbox replacement is
emitted exactly when that truncated test fails, a caret exactly at the
task marker's end offset never passes it, while under the inclusive-touch
rule of every other construct a caret at the reference end counts as
inside. -/
theorem taskBlock_truncated_range (doc : List Char) (sel : List Range)
    (parent : Option Tree) (node tm : Tree)
    (hname : node.name = "Task")
    (htm : node.children.find? (fun c => c.name == "TaskMarker") = some tm) :
    ((taskBlock doc sel parent node).any (fun d => isCheckboxDeco d.deco)
      = !isCursorInRange sel (taskRangeStart parent tm) (tm.«to» - 1))
    ∧ isCursorInRange [⟨tm.«to», tm.«to»⟩] (taskRangeStart parent tm) (tm.«to» - 1) = false
    ∧ (∀ s e : Int, s ≤ e → isCursorInRange [⟨e, e⟩] s e = true) := by
  refine ⟨?_, ?_, ?_⟩
  · simp only [taskBlock, hname, BEq.refl, if_true, htm]
    cases hcur : isCursorInRange sel (taskRangeStart parent tm) (tm.«to» - 1) with
    | true => simp
    | false =>
        simp only [Bool.not_false, if_true, List.any_append]
        cases taskListMark parent <;> simp
  · simp [isCursorInRange]
  · intro s e h
    simp [isCursorInRange, h]

/-- C10 witness: for `- [ ] Buy milk` with list mark `[0, 1)` and task
marker `[2, 5)`, a caret exactly at offset `5` does not pass the
truncated visibility test. -/
theorem taskBlock_truncated_range_witness :
    isCursorInRange [⟨5, 5⟩]
        (taskRangeStart (some (Tree.mk "ListItem" 0 14 [Tree.mk "ListMark" 0 1 []]))
          (Tree.mk "TaskMarker" 2 5 []))
        ((Tree.mk "TaskMarker" 2 5 []).«to» - 1) = false :=
  (taskBlock_truncated_range "- [ ] Buy milk".toList [⟨5, 5⟩]
      (some (Tree.mk "ListItem" 0 14 [Tree.mk "ListMark" 0 1 []]))
      (Tree.mk "Task" 2 14 [Tree.mk "TaskMarker" 2 5 []])
      (Tree.mk "TaskMarker" 2 5 []) rfl rfl).2.1

end Logbook
